import Mathlib

/-!
# Verification of the smart-commit change classifier and message synthesizer

Shallow embedding of `src/lib/diff-analyzer.js` and `src/lib/message-generator.js`.
Text is modelled as `List Char` (JS strings; `.length`, indexing and the regex
character classes are over code units, which for the ASCII data handled here
coincides with a list of characters).  JS objects whose keys are inserted
dynamically are modelled as association lists in insertion order (JS string-keyed
objects enumerate keys in insertion order).  The git-facing getters
(`getGitStatus`, `getDiffStats`, `getStagedDiff`) are external collaborators per
the spec; `analyzeChanges` takes their results as an explicit `ChangeSet` input.
-/

abbrev Str := List Char

/-- Lowercase a string character-wise (JS `String.prototype.toLowerCase`,
ASCII range; the sources only compare ASCII data). -/
def lowerStr (s : Str) : Str := s.map Char.toLower

/-- JS `String.prototype.split('\n')`. -/
def splitLines : Str → List Str
  | [] => [[]]
  | c :: tl =>
    match splitLines tl with
    | [] => [[]]
    | l :: ls => if c = '\n' then [] :: l :: ls else (c :: l) :: ls

/-- Whitespace for the JS `\s` class and `String.prototype.trim`
(ASCII subset; the exotic Unicode space code points do not occur in the data
manipulated by the sources). -/
def isJsSpace (c : Char) : Bool :=
  c = ' ' || c = '\t' || c = '\n' || c = '\r' || c = '\x0b' || c = '\x0c'

/-- JS `String.prototype.trim`. -/
def trimStr (s : Str) : Str :=
  ((s.dropWhile isJsSpace).reverse.dropWhile isJsSpace).reverse

/-- JS `Array.prototype.join(sep)`. -/
def joinWith (sep : Str) : List Str → Str
  | [] => []
  | [x] => x
  | x :: y :: tl => x ++ sep ++ joinWith sep (y :: tl)

/-- Decimal rendering of a count interpolated into a template literal. -/
def natStr (n : Nat) : Str := (Nat.repr n).data

/-- JS `\w` character class: `[A-Za-z0-9_]`. -/
def isWordChar (c : Char) : Bool := c.isAlphanum || c = '_'

/-- JS `.` (dot) in a regex matches everything except a line terminator. -/
def isLineTerm (c : Char) : Bool := c = '\n' || c = '\r'

/-- ASCII `[A-Z]`. -/
def isAsciiUpper (c : Char) : Bool := 'A' ≤ c && c ≤ 'Z'

/-! ## Data model (inputs of `analyzeChanges`) -/

/-- Result shape of `getGitStatus` (diff-analyzer.js lines 74-107). -/
structure GitStatus where
  added : List Str
  modified : List Str
  deleted : List Str
  renamed : List Str

/-- Result shape of `getDiffStats` (diff-analyzer.js lines 112-142). -/
structure DiffStats where
  files_changed : Nat
  insertions : Nat
  deletions : Nat

/-- The injected change-set: file statuses, stat totals and the raw staged
diff, exactly the three external reads performed at the top of
`analyzeChanges` (diff-analyzer.js lines 227-229). -/
structure ChangeSet where
  status : GitStatus
  stats : DiffStats
  diffContent : Str

/-- The record returned by `analyzeChanges` (diff-analyzer.js lines 244-252). -/
structure Analysis where
  status : GitStatus
  stats : DiffStats
  file_types : List (Str × Nat)
  change_type : Str
  scope : Option Str
  entities : List Str
  diff_content : Str

/-! ## File-type table (diff-analyzer.js lines 11-38) -/

def fileExtensions : List (Str × Str) :=
  [(".py".data, "python".data),
   (".js".data, "javascript".data),
   (".ts".data, "typescript".data),
   (".jsx".data, "react".data),
   (".tsx".data, "react".data),
   (".go".data, "golang".data),
   (".java".data, "java".data),
   (".cpp".data, "cpp".data),
   (".c".data, "c".data),
   (".rs".data, "rust".data),
   (".rb".data, "ruby".data),
   (".php".data, "php".data),
   (".css".data, "css".data),
   (".scss".data, "sass".data),
   (".html".data, "html".data),
   (".md".data, "documentation".data),
   (".json".data, "config".data),
   (".yaml".data, "config".data),
   (".yml".data, "config".data),
   (".xml".data, "config".data),
   (".toml".data, "config".data),
   (".dockerfile".data, "docker".data),
   (".sql".data, "database".data),
   (".sh".data, "script".data),
   (".bash".data, "script".data),
   (".zsh".data, "script".data)]

/-- Node `path.basename` (posix): the part after the last `/`, ignoring
trailing slashes. -/
def basenameStr (p : Str) : Str :=
  ((p.reverse.dropWhile (· = '/')).takeWhile (· ≠ '/')).reverse

/-- Node `path.extname` (posix): the suffix of the basename starting at its
last `.`, or empty when the basename has no `.` past position 0 (dotfiles have
no extension).  The degenerate all-dots basenames (`..`) are not produced by
git paths and follow the last-dot rule here. -/
def extnameStr (p : Str) : Str :=
  let b := basenameStr p
  let r := b.reverse
  let k := (r.takeWhile (· ≠ '.')).length
  if k = r.length then []
  else if k + 1 = r.length then []
  else b.drop (b.length - 1 - k)

/-- Increment of `fileTypes[fileType] = (fileTypes[fileType] || 0) + 1` on an
insertion-ordered association list. -/
def bumpCount (m : List (Str × Nat)) (k : Str) : List (Str × Nat) :=
  match m with
  | [] => [(k, 1)]
  | (k', v) :: tl => if k' = k then (k', v + 1) :: tl else (k', v) :: bumpCount tl k

/-- `analyzeFileTypes` (diff-analyzer.js lines 159-169). -/
def analyzeFileTypes (files : List Str) : List (Str × Nat) :=
  files.foldl
    (fun m f =>
      bumpCount m ((fileExtensions.lookup (lowerStr (extnameStr f))).getD "other".data))
    []

/-! ## Change-type detection (diff-analyzer.js lines 40-68 and 174-196)

Every pattern in `changePatterns` has the shape `/a.*/i` or `/a.*b/i` where `a`
and `b` are literal words.  The diff is lowercased before matching, which
subsumes the `/i` flag for these all-lowercase literals.  `String.prototype.match`
with a NON-global regex returns either `null` or a match array of length 1
(these regexes have no capture groups), so each pattern contributes 0 or 1 to
the score of its category, regardless of how many places it matches. -/

inductive Pat where
  | lit (a : Str)
  | seq (a b : Str)

/-- `a` occurs as a contiguous substring of `s` (JS `String.prototype.includes`,
also the existence half of a regex literal search). -/
def substrOf (a : Str) : Str → Bool
  | [] => a.isPrefixOf []
  | c :: tl => a.isPrefixOf (c :: tl) || substrOf a tl

/-- Does `b` occur after the current position with only non-line-terminator
characters before it (the `.*b` tail of a pattern)? -/
def noTermThen (b : Str) : Str → Bool
  | [] => b.isPrefixOf []
  | c :: tl => b.isPrefixOf (c :: tl) || (!isLineTerm c && noTermThen b tl)

/-- `/a.*b/` matches somewhere in the text: an occurrence of `a` followed, with
no intervening line terminator, by an occurrence of `b`. -/
def seqMatch (a b : Str) : Str → Bool
  | [] => a.isPrefixOf [] && noTermThen b []
  | c :: tl =>
    (a.isPrefixOf (c :: tl) && noTermThen b ((c :: tl).drop a.length)) || seqMatch a b tl

/-- Whether a pattern matches anywhere in the text (the `/a.*/` form matches
iff `a` occurs as a substring, since `.*` may be empty). -/
def patMatch (text : Str) : Pat → Bool
  | .lit a => substrOf a text
  | .seq a b => seqMatch a b text

def featurePats : List Pat :=
  [.seq "add".data "function".data, .seq "new".data "class".data, .lit "implement".data,
   .lit "create".data, .lit "introduce".data, .lit "build".data]

def fixPats : List Pat :=
  [.seq "fix".data "bug".data, .lit "resolve".data, .lit "correct".data,
   .lit "patch".data, .lit "repair".data, .seq "address".data "issue".data]

def refactorPats : List Pat :=
  [.lit "refactor".data, .lit "restructure".data, .lit "reorganize".data,
   .seq "clean".data "up".data, .lit "simplify".data, .lit "optimize".data]

def docsPats : List Pat :=
  [.seq "update".data "documentation".data, .seq "add".data "comment".data,
   .seq "improve".data "readme".data, .lit "document".data, .seq "add".data "docstring".data]

def stylePats : List Pat :=
  [.lit "format".data, .lit "indent".data, .lit "whitespace".data,
   .lit "style".data, .lit "lint".data, .lit "prettier".data]

def testPats : List Pat :=
  [.seq "add".data "test".data, .lit "test".data, .lit "spec".data, .lit "mock".data]

def chorePats : List Pat :=
  [.seq "update".data "dependency".data, .lit "upgrade".data, .lit "maintenance".data,
   .lit "cleanup".data, .seq "remove".data "unused".data]

/-- `this.changePatterns` in insertion order (diff-analyzer.js lines 40-68). -/
def changePatterns : List (Str × List Pat) :=
  [("feature".data, featurePats), ("fix".data, fixPats), ("refactor".data, refactorPats),
   ("docs".data, docsPats), ("style".data, stylePats), ("test".data, testPats),
   ("chore".data, chorePats)]

/-- The `typeScores` object: each category paired with the number of its
patterns that match the (already lowercased) text. -/
def typeScores (dl : Str) : List (Str × Nat) :=
  changePatterns.map (fun ct => (ct.1, ct.2.countP (patMatch dl)))

/-- `Object.keys(typeScores).reduce((a,b) => typeScores[a] > typeScores[b] ? a : b)`:
a left fold that keeps the accumulator only on strictly greater score, so among
equal maxima the last key wins.  (JS `reduce` without an initial value throws on
an empty object; `changePatterns` is never empty.) -/
def pickMaxKey : List (Str × Nat) → Str
  | [] => "feat".data
  | p :: tl => (tl.foldl (fun a b => if a.2 > b.2 then a else b) p).1

/-- `detectChangeType` (diff-analyzer.js lines 174-196).  The `!typeScores`
guard in the source is dead code (a JS object is never falsy), so only the
`Math.max(...) === 0` test decides the default branch. -/
def detectChangeType (diffContent : Str) : Str :=
  let ts := typeScores (lowerStr diffContent)
  if (ts.map (·.2)).foldl max 0 = 0 then "feat".data
  else pickMaxKey ts

/-! ## Scope determination (diff-analyzer.js lines 258-282) -/

/-- `determineScope` (diff-analyzer.js lines 258-282).  Note that the
`.json` / `.yaml` checks use the original (not lowercased) path. -/
def determineScope (fileTypes : List (Str × Nat)) (files : List Str) : Option Str :=
  match fileTypes with
  | [(k, _)] => some k
  | _ =>
    if files.any (fun f => substrOf "test".data (lowerStr f)) then some "test".data
    else if files.any (fun f =>
        substrOf "doc".data (lowerStr f) || substrOf "readme".data (lowerStr f)) then
      some "docs".data
    else if files.any (fun f =>
        substrOf "config".data (lowerStr f) || substrOf ".json".data f ||
        substrOf ".yaml".data f) then
      some "config".data
    else
      match fileTypes with
      | [] => none
      | p :: tl => some ((tl.foldl (fun a b => if a.2 > b.2 then a else b) p).1)

/-! ## Entity extraction (diff-analyzer.js lines 201-221)

The six global regexes all have the shape `/\+.*K\s+(\w+)/g` (for `def`,
`function`, `class`) or `/\+.*K\s+(\w+)\s*=/g` (for `const`, `let`, `var`).
The `exec` loop repeatedly finds the leftmost match at or after `lastIndex` and
pushes capture group 1.  A match starts at a literal `+` (anywhere in a line,
not only at line starts), `.*` greedily spans non-line-terminator characters
and backtracks, so `K` is taken at the RIGHTMOST position on the same line at
which the whole rest of the pattern succeeds; `\s+` (which may include
newlines) then the maximal `\w+` run form the capture, followed for the
assignment forms by `\s*` and a literal `=`.  Scanning resumes after the match
end. -/

/-- Match `K\s+(\w+)` (and `\s*=` when `needsEq`) exactly at the start of `l`;
returns the capture and the remainder of the text after the match end. -/
def matchKey (kw : Str) (needsEq : Bool) (l : Str) : Option (Str × Str) :=
  if kw.isPrefixOf l then
    match l.drop kw.length with
    | [] => none
    | c :: tl =>
      if isJsSpace c then
        if ((c :: tl).dropWhile isJsSpace).takeWhile isWordChar = [] then none
        else if needsEq then
          match (((c :: tl).dropWhile isJsSpace).dropWhile isWordChar).dropWhile isJsSpace with
          | '=' :: r5 => some (((c :: tl).dropWhile isJsSpace).takeWhile isWordChar, r5)
          | _ => none
        else
          some (((c :: tl).dropWhile isJsSpace).takeWhile isWordChar,
            ((c :: tl).dropWhile isJsSpace).dropWhile isWordChar)
      else none
  else none

/-- Greedy `.*`: try the rightmost same-line position first, backtracking
leftwards; a line terminator cannot be consumed, so at one the only candidate
is the current position. -/
def tryGreedy (kw : Str) (needsEq : Bool) : Str → Option (Str × Str)
  | [] => matchKey kw needsEq []
  | c :: tl =>
    if isLineTerm c then matchKey kw needsEq (c :: tl)
    else
      match tryGreedy kw needsEq tl with
      | some r => some r
      | none => matchKey kw needsEq (c :: tl)

theorem matchKey_rest_le {kw : Str} {needsEq : Bool} {l w r : Str}
    (h : matchKey kw needsEq l = some (w, r)) : r.length ≤ l.length := by
  unfold matchKey at h
  split at h
  case isFalse => exact absurd h (by simp)
  split at h
  case h_1 => exact absurd h (by simp)
  rename_i c tl hdrop
  have hlen_ct : (c :: tl).length ≤ l.length := by
    have := congrArg List.length hdrop
    simp only [List.length_drop] at this
    omega
  have h2 : ((c :: tl).dropWhile isJsSpace).length ≤ (c :: tl).length :=
    (List.dropWhile_sublist _).length_le
  have h3 : (((c :: tl).dropWhile isJsSpace).dropWhile isWordChar).length ≤
      ((c :: tl).dropWhile isJsSpace).length :=
    (List.dropWhile_sublist _).length_le
  split at h
  · split at h
    · exact absurd h (by simp)
    · split at h
      · split at h
        · rename_i r5 hr5
          have h4 := congrArg List.length hr5
          have h5 : ((((c :: tl).dropWhile isJsSpace).dropWhile isWordChar).dropWhile
              isJsSpace).length ≤
              (((c :: tl).dropWhile isJsSpace).dropWhile isWordChar).length :=
            (List.dropWhile_sublist _).length_le
          simp only [List.length_cons] at h4
          simp only [Option.some.injEq, Prod.mk.injEq] at h
          obtain ⟨hw, hr⟩ := h
          subst hr
          omega
        · exact absurd h (by simp)
      · simp only [Option.some.injEq, Prod.mk.injEq] at h
        obtain ⟨hw, hr⟩ := h
        subst hr
        omega
  · exact absurd h (by simp)

theorem tryGreedy_rest_le {kw : Str} {needsEq : Bool} {l w r : Str}
    (h : tryGreedy kw needsEq l = some (w, r)) : r.length ≤ l.length := by
  induction l with
  | nil => exact matchKey_rest_le (by simpa [tryGreedy] using h)
  | cons c tl ih =>
    unfold tryGreedy at h
    split at h
    · exact matchKey_rest_le h
    · split at h
      · rename_i res hres
        simp only [Option.some.injEq] at h
        rw [h] at hres
        have := ih hres
        simp only [List.length_cons]
        omega
      · exact matchKey_rest_le h

/-- The `exec` loop of one pattern, with an explicit step budget (structural
recursion on the budget so that the definition computes by reduction). -/
def scanMatchesFuel (kw : Str) (needsEq : Bool) : Nat → Str → List Str
  | 0, _ => []
  | _ + 1, [] => []
  | fuel + 1, c :: tl =>
    if c = '+' then
      match tryGreedy kw needsEq tl with
      | some (w, rest) => w :: scanMatchesFuel kw needsEq fuel rest
      | none => scanMatchesFuel kw needsEq fuel tl
    else scanMatchesFuel kw needsEq fuel tl

/-- The `exec` loop of one pattern: collect the captures of all matches in
scanning order.  A budget of `text.length` steps always suffices, since every
step discards at least one character (`tryGreedy_rest_le`); the characteristic
equation `scanMatches_cons` below confirms that this computes the unfettered
loop. -/
def scanMatches (kw : Str) (needsEq : Bool) (text : Str) : List Str :=
  scanMatchesFuel kw needsEq text.length text

theorem scanMatchesFuel_congr (kw : Str) (needsEq : Bool) :
    ∀ (fuel : Nat) {fuel2 : Nat} {text : Str}, text.length ≤ fuel →
      text.length ≤ fuel2 →
      scanMatchesFuel kw needsEq fuel text = scanMatchesFuel kw needsEq fuel2 text := by
  intro fuel
  induction fuel with
  | zero =>
    intro fuel2 text h h2
    have htext : text = [] := List.length_eq_zero.mp (Nat.le_zero.mp h)
    subst htext
    cases fuel2 <;> rfl
  | succ n ih =>
    intro fuel2 text h h2
    cases text with
    | nil => cases fuel2 <;> rfl
    | cons c tl =>
      cases fuel2 with
      | zero => simp at h2
      | succ n2 =>
        simp only [List.length_cons, Nat.add_le_add_iff_right] at h h2
        simp only [scanMatchesFuel]
        by_cases hc : c = '+'
        · rw [if_pos hc, if_pos hc]
          cases htry : tryGreedy kw needsEq tl with
          | none => exact ih h h2
          | some pr =>
            obtain ⟨w, rest⟩ := pr
            have hrest := tryGreedy_rest_le htry
            have e1 : rest.length ≤ n := Nat.le_trans hrest h
            have e2 : rest.length ≤ n2 := Nat.le_trans hrest h2
            dsimp only
            rw [ih e1 e2]
        · rw [if_neg hc, if_neg hc]
          exact ih h h2

/-- The JS `exec` loop equation: at a `+` try the greedy match, push the
capture and continue after the match end, otherwise advance one character. -/
theorem scanMatches_cons (kw : Str) (needsEq : Bool) (c : Char) (tl : Str) :
    scanMatches kw needsEq (c :: tl) =
      (if c = '+' then
        match tryGreedy kw needsEq tl with
        | some (w, rest) => w :: scanMatches kw needsEq rest
        | none => scanMatches kw needsEq tl
      else scanMatches kw needsEq tl) := by
  unfold scanMatches
  simp only [List.length_cons, scanMatchesFuel]
  by_cases hc : c = '+'
  · rw [if_pos hc, if_pos hc]
    cases htry : tryGreedy kw needsEq tl with
    | none => rfl
    | some pr =>
      obtain ⟨w, rest⟩ := pr
      have hrest := tryGreedy_rest_le htry
      dsimp only
      rw [scanMatchesFuel_congr kw needsEq tl.length hrest (Nat.le_refl _)]
  · rw [if_neg hc, if_neg hc]

/-- The six patterns in source order; `true` marks the `\s*=` suffix of the
`const` / `let` / `var` declarations. -/
def entityPatterns : List (Str × Bool) :=
  [("def".data, false), ("function".data, false), ("class".data, false),
   ("const".data, true), ("let".data, true), ("var".data, true)]

/-- `[...new Set(entities)]`: remove duplicates keeping the first occurrence. -/
def dedupSeen (seen : List Str) : List Str → List Str
  | [] => []
  | x :: xs => if x ∈ seen then dedupSeen seen xs else x :: dedupSeen (x :: seen) xs

/-- All captures, pattern-major: every match of the `def` pattern in text
order, then every match of the `function` pattern, and so on. -/
def rawEntities (diffContent : Str) : List Str :=
  (entityPatterns.map (fun p => scanMatches p.1 p.2 diffContent)).flatten

/-- `extractFunctionsAndClasses` (diff-analyzer.js lines 201-221). -/
def extractFunctionsAndClasses (diffContent : Str) : List Str :=
  dedupSeen [] (rawEntities diffContent)

/-! ## `analyzeChanges` (diff-analyzer.js lines 226-253) -/

/-- `analyzeChanges`, with the three git reads supplied as the `ChangeSet`
argument.  `Object.values(status)` enumerates the four lists in the insertion
order of `getGitStatus`: added, modified, deleted, renamed. -/
def analyzeChanges (cs : ChangeSet) : Analysis :=
  let allFiles := cs.status.added ++ cs.status.modified ++ cs.status.deleted ++
    cs.status.renamed
  let fileTypes := analyzeFileTypes allFiles
  { status := cs.status
    stats := cs.stats
    file_types := fileTypes
    change_type := detectChangeType cs.diffContent
    scope := determineScope fileTypes allFiles
    entities := (extractFunctionsAndClasses cs.diffContent).take 5
    diff_content := cs.diffContent }

/-! ## Message generator (src/lib/message-generator.js)

`lib/constants.js` (COMMIT_TYPES, TYPE_MAPPING, ACTION_VERBS) is imported by
message-generator.js but is not part of the provided sources, so the two
tables used by the generator are modelled from the spec below.  All generator
functions that read the verb table take it as an explicit argument so that the
in-place array mutation performed by `suggestMultipleMessages` can be modelled
by state passing; the module-level behaviour is recovered by instantiating the
argument with `ACTION_VERBS`. -/

/-- Modelled from the spec: the missing `lib/constants.js` table `TYPE_MAPPING`,
"produced by mapping `changeType` through a fixed table; default `feat` for any
unmapped/tie case" (§3), over the semantic categories
{feature, fix, refactor, docs, style, test, chore} (§3) and the conventional
types used by the generator. -/
def TYPE_MAPPING : List (Str × Str) :=
  [("feature".data, "feat".data), ("fix".data, "fix".data),
   ("refactor".data, "refactor".data), ("docs".data, "docs".data),
   ("style".data, "style".data), ("test".data, "test".data),
   ("chore".data, "chore".data)]

/-- Modelled from the spec: the missing `lib/constants.js` table `ACTION_VERBS`,
"a fixed type→ordered-verb-list table (e.g. feat → [add, implement, introduce, …])"
(§4.2).  Each commit type has at least two verbs, as required for the second
suggestion of §4.2 to exist; the verbs are plain lowercase words. -/
def ACTION_VERBS : List (Str × List Str) :=
  [("feat".data, ["add".data, "implement".data, "introduce".data]),
   ("fix".data, ["fix".data, "resolve".data, "correct".data]),
   ("refactor".data, ["refactor".data, "restructure".data, "simplify".data]),
   ("docs".data, ["document".data, "update".data, "improve".data]),
   ("style".data, ["format".data, "style".data, "polish".data]),
   ("test".data, ["add".data, "update".data, "extend".data]),
   ("chore".data, ["update".data, "upgrade".data, "maintain".data])]

/-- `this.typeMapping[analysis.change_type] || 'feat'` (message-generator.js
line 131; also lines 296 and 311). -/
def commitTypeOf (change_type : Str) : Str :=
  (TYPE_MAPPING.lookup change_type).getD "feat".data

/-- `_getCleanFilename` (message-generator.js lines 219-228):
`path.parse(path.basename(p)).name` with `_` and `-` replaced by spaces. -/
def getCleanFilename (filepath : Str) : Str :=
  let filename := basenameStr filepath
  let nameWithoutExt := filename.take (filename.length - (extnameStr filename).length)
  nameWithoutExt.map (fun c => if c = '_' || c = '-' then ' ' else c)

/-- `_generateDescription` (message-generator.js lines 148-214), with the verb
table passed explicitly.  `verbs[0]` on the (never occurring) empty verb list
would interpolate as the string `undefined`. -/
def generateDescriptionWith (verbTable : List (Str × List Str)) (a : Analysis)
    (commitType : Str) : Str :=
  let verbs := (verbTable.lookup commitType).getD ["update".data]
  let verb := verbs.headD "undefined".data
  if a.status.added ≠ [] ∧ a.status.modified = [] ∧ a.status.deleted = [] then
    if a.status.added.length = 1 then
      verb ++ " ".data ++ getCleanFilename (a.status.added.headD [])
    else
      verb ++ " ".data ++ natStr a.status.added.length ++ " new files".data
  else if a.status.deleted ≠ [] ∧ a.status.added = [] ∧ a.status.modified = [] then
    if a.status.deleted.length = 1 then
      "remove ".data ++ getCleanFilename (a.status.deleted.headD [])
    else
      "remove ".data ++ natStr a.status.deleted.length ++ " files".data
  else if a.status.modified ≠ [] ∧ a.status.added = [] ∧ a.status.deleted = [] then
    if a.entities ≠ [] then
      if a.entities.length = 1 then
        verb ++ " ".data ++ a.entities.headD [] ++ " function".data
      else if a.entities.length ≤ 3 then
        verb ++ " ".data ++ joinWith ", ".data a.entities ++ " functions".data
      else
        verb ++ " multiple functions".data
    else if a.status.modified.length = 1 then
      verb ++ " ".data ++ getCleanFilename (a.status.modified.headD [])
    else
      verb ++ " ".data ++ natStr a.status.modified.length ++ " files".data
  else
    if a.entities ≠ [] ∧
        (commitType = "feat".data ∨ commitType = "fix".data ∨
          commitType = "refactor".data) then
      if a.entities.length = 1 then
        verb ++ " ".data ++ a.entities.headD []
      else
        verb ++ " ".data ++ a.entities.headD [] ++ " and related functionality".data
    else
      if a.status.added.length + a.status.modified.length + a.status.deleted.length
          = 1 then
        verb ++ " ".data ++
          getCleanFilename
            ((a.status.added ++ a.status.modified ++ a.status.deleted).headD [])
      else
        verb ++ " ".data ++
          natStr (a.status.added.length + a.status.modified.length +
            a.status.deleted.length) ++ " files".data

/-- `generateSubject` (message-generator.js lines 130-143), with the verb table
passed explicitly.  `scope && scope !== 'other'` is JS truthiness: a null or
empty scope falls to the unscoped form. -/
def generateSubjectWith (verbTable : List (Str × List Str)) (a : Analysis) : Str :=
  let commitType := commitTypeOf a.change_type
  let description := generateDescriptionWith verbTable a commitType
  match a.scope with
  | some scope =>
    if scope ≠ [] ∧ scope ≠ "other".data then
      commitType ++ "(".data ++ scope ++ "): ".data ++ description
    else
      commitType ++ ": ".data ++ description
  | none => commitType ++ ": ".data ++ description

/-- `generateSubject` at the module-level verb table. -/
def generateSubject (a : Analysis) : Str := generateSubjectWith ACTION_VERBS a

/-- `generateBody` (message-generator.js lines 233-264). -/
def generateBody (a : Analysis) : Option Str :=
  let parts : List Str :=
    (if a.stats.files_changed > 3 then
      ["Modified ".data ++ natStr a.stats.files_changed ++ " files".data] else []) ++
    (if a.stats.insertions > 20 ∨ a.stats.deletions > 20 then
      ["+".data ++ natStr a.stats.insertions ++ " -".data ++
        natStr a.stats.deletions ++ " lines".data] else []) ++
    (if a.entities.length > 1 then
      ["Updated functions: ".data ++ joinWith ", ".data a.entities] else []) ++
    (if a.file_types.length > 2 then
      ["Affected: ".data ++ joinWith ", ".data (a.file_types.map (·.1)) ++
        " files".data] else [])
  if parts = [] then none else some (joinWith "\n".data parts)

/-- `generateFullMessage` (message-generator.js lines 269-283), with the verb
table passed explicitly. -/
def generateFullMessageWith (verbTable : List (Str × List Str)) (a : Analysis)
    (includeBody : Bool) : Str :=
  let subject := generateSubjectWith verbTable a
  if !includeBody then subject
  else
    match generateBody a with
    | some body => subject ++ "\n\n".data ++ body
    | none => subject

/-- `generateFullMessage` at the module-level verb table. -/
def generateFullMessage (a : Analysis) (includeBody : Bool) : Str :=
  generateFullMessageWith ACTION_VERBS a includeBody

/-- Replace the value of the first binding of `k` (JS: mutating the array that
the object maps `k` to; object keys are unique, so only one binding exists). -/
def setVal (m : List (Str × List Str)) (k : Str) (v : List Str) :
    List (Str × List Str) :=
  match m with
  | [] => []
  | (k', v') :: tl => if k' = k then (k', v) :: tl else (k', v') :: setVal tl k v

/-- `suggestMultipleMessages` (message-generator.js lines 288-325) as a state
transformer over the shared `ACTION_VERBS` table: `verbs[0] = verbs[1]` mutates
the array held in the table (the `|| ['update']` fallback is a fresh array of
length 1, for which the mutating branch is never entered), the second message
is generated against the mutated table, and `verbs[0] = originalFirstVerb`
restores it.  Returns the messages together with the final table. -/
def suggestMultipleMessagesSt (verbTable : List (Str × List Str)) (a : Analysis)
    (count : Nat) : List Str × List (Str × List Str) :=
  let first := generateFullMessageWith verbTable a false
  let originalType := commitTypeOf a.change_type
  let verbs := (verbTable.lookup originalType).getD ["update".data]
  let step2 :=
    if count > 1 ∧ verbs.length > 1 then
      let mutated := verbs.set 0 (verbs.getD 1 [])
      let table' := setVal verbTable originalType mutated
      let second := generateFullMessageWith table' a false
      let restored := setVal table' originalType (mutated.set 0 (verbs.headD []))
      ([first, second], restored)
    else ([first], verbTable)
  let step3 :=
    if count > 2 then
      let commitType := commitTypeOf a.change_type
      let filesChanged := if a.stats.files_changed = 0 then 1 else a.stats.files_changed
      let genericMsg :=
        match a.scope with
        | some scope =>
          if scope ≠ [] ∧ scope ≠ "other".data then
            commitType ++ "(".data ++ scope ++ "): update implementation".data
          else
            commitType ++ ": update ".data ++ natStr filesChanged ++ " file".data ++
              (if filesChanged > 1 then "s".data else [])
        | none =>
          commitType ++ ": update ".data ++ natStr filesChanged ++ " file".data ++
            (if filesChanged > 1 then "s".data else [])
      (step2.1 ++ [genericMsg], step2.2)
    else step2
  (step3.1.take count, step3.2)

/-- `suggestMultipleMessages` at the module-level verb table, returning the
message list. -/
def suggestMultipleMessages (a : Analysis) (count : Nat) : List Str :=
  (suggestMultipleMessagesSt ACTION_VERBS a count).1

/-! ## Validation (message-generator.js lines 330-360)

`validateMessage` tests the first line of the message against
`/^(feat|fix|docs|style|refactor|perf|test|build|ci|chore|revert)(\(.+\))?: .+/`.
`RegExp.prototype.test` succeeds iff some match starting at position 0 exists;
with backtracking this is existence of a decomposition: one of the alternative
type words, optionally `(` + a nonempty run of non-line-terminator characters
(which may themselves include `(` or `)`) + `)`, then `: ` and at least one
non-line-terminator character.  No alternative word is a prefix of another, and
existence over all backtracking choices is what the scans below compute. -/

def commitTypeNames : List Str :=
  ["feat".data, "fix".data, "docs".data, "style".data, "refactor".data,
   "perf".data, "test".data, "build".data, "ci".data, "chore".data, "revert".data]

/-- The `: .+` tail: a colon, a space, then at least one character matched by
`.`. -/
def colonDesc : Str → Bool
  | ':' :: ' ' :: c :: _ => !isLineTerm c
  | _ => false

/-- Inside `\(.+\)` after at least one character has been consumed by `.+`:
either close the group here and match the tail, or consume one more
non-line-terminator character. -/
def scopeAfterOne : Str → Bool
  | [] => false
  | c :: tl => (c = ')' && colonDesc tl) || (!isLineTerm c && scopeAfterOne tl)

/-- `\(.+\)` after the opening parenthesis: `.+` must consume at least one
non-line-terminator character. -/
def scopeScan : Str → Bool
  | [] => false
  | c :: tl => !isLineTerm c && scopeAfterOne tl

/-- After the type word: either `: .+` directly, or `(` + scope + `): .+`. -/
def restFormatOk (r : Str) : Bool :=
  colonDesc r ||
    (match r with
     | '(' :: r2 => scopeScan r2
     | _ => false)

/-- The whole format regex, anchored at the start. -/
def formatOk (s : Str) : Bool :=
  commitTypeNames.any (fun t => t.isPrefixOf s && restFormatOk (s.drop t.length))

def formatErrMsg : Str := "Subject line doesn\x27t follow conventional commit format".data

def lengthErrMsg : Str := "Subject line is too long (should be ≤ 72 characters)".data

def capitalErrMsg : Str := "Description should start with lowercase letter".data

def periodErrMsg : Str := "Subject line should not end with a period".data

/-- The `description` of the capitalization check:
`subject.split(':', 2)[1].trim()`, i.e. the text between the first colon and
the next colon (or the end), trimmed. -/
def capDescription (subject : Str) : Str :=
  trimStr (((subject.dropWhile (· ≠ ':')).drop 1).takeWhile (· ≠ ':'))

/-- `validateMessage` (message-generator.js lines 330-360): the pair
`[errors.length === 0, errors]`, with the errors accumulated in source order. -/
def validateMessage (message : Str) : Bool × List Str :=
  let subject := (splitLines message).headD []
  let errors :=
    (if formatOk subject then [] else [formatErrMsg]) ++
    (if subject.length > 72 then [lengthErrMsg] else []) ++
    (if subject ≠ [] ∧ subject.contains ':' then
      (if capDescription subject ≠ [] ∧
          isAsciiUpper ((capDescription subject).headD ' ') then
        [capitalErrMsg]
      else [])
    else []) ++
    (if subject.getLast? = some '.' then [periodErrMsg] else [])
  (errors = [], errors)

/-! ## General helper lemmas -/

theorem mem_of_lookup_eq_some {α : Type} {m : List (Str × α)} {k : Str} {v : α}
    (h : m.lookup k = some v) : (k, v) ∈ m := by
  induction m with
  | nil => simp [List.lookup] at h
  | cons p tl ih =>
    obtain ⟨k', v'⟩ := p
    simp only [List.lookup] at h
    split at h
    · rename_i hbeq
      simp only [Option.some.injEq] at h
      have : k = k' := by simpa using hbeq
      subst this
      subst h
      exact List.mem_cons_self _ _
    · exact List.mem_cons_of_mem _ (ih h)

theorem isPrefixOf_append_self (l₁ l₂ : Str) : l₁.isPrefixOf (l₁ ++ l₂) = true := by
  simp [List.isPrefixOf_iff_prefix]

theorem splitLines_ne_nil (s : Str) : splitLines s ≠ [] := by
  induction s with
  | nil => simp [splitLines]
  | cons c tl ih =>
    unfold splitLines
    split
    · simp
    · split <;> simp

theorem splitLines_headD (s : Str) : (splitLines s).headD [] = s.takeWhile (· ≠ '\n') := by
  induction s with
  | nil => simp [splitLines]
  | cons c tl ih =>
    unfold splitLines
    split
    · rename_i heq
      exact absurd heq (splitLines_ne_nil tl)
    · rename_i l ls heq
      by_cases hc : c = '\n'
      · subst hc
        simp [List.takeWhile_cons]
      · have hl : l = tl.takeWhile (· ≠ '\n') := by
          rw [← ih, heq]
          rfl
        simp [hc, List.takeWhile_cons, hl]

/-- Head of a string exists and is not a line terminator. -/
def headOk (s : Str) : Bool :=
  match s with
  | c :: _ => !isLineTerm c
  | [] => false

theorem headOk_append {x : Str} (y : Str) (h : headOk x = true) :
    headOk (x ++ y) = true := by
  cases x with
  | nil => simp [headOk] at h
  | cons c tl => simpa [headOk] using h

theorem foldl_pick_mem (l : List (Str × Nat)) (init : Str × Nat) :
    (l.foldl (fun a b => if a.2 > b.2 then a else b) init) ∈ init :: l := by
  induction l generalizing init with
  | nil => simp [List.foldl]
  | cons b tl ih =>
    simp only [List.foldl]
    have h := ih (if init.2 > b.2 then init else b)
    rcases List.mem_cons.mp h with h1 | h2
    · rw [h1]
      split
      · exact List.mem_cons_self _ _
      · exact List.mem_cons_of_mem _ (List.mem_cons_self _ _)
    · exact List.mem_cons_of_mem _ (List.mem_cons_of_mem _ h2)

theorem foldl_pick_ge (l : List (Str × Nat)) (init : Str × Nat) :
    ∀ p ∈ init :: l, p.2 ≤ (l.foldl (fun a b => if a.2 > b.2 then a else b) init).2 := by
  induction l generalizing init with
  | nil => simp
  | cons b tl ih =>
    intro p hp
    simp only [List.foldl]
    have hstep : init.2 ≤ (if init.2 > b.2 then init else b).2 ∧
        b.2 ≤ (if init.2 > b.2 then init else b).2 := by
      split <;> omega
    rcases List.mem_cons.mp hp with h1 | h2
    · subst h1
      calc p.2 ≤ (if p.2 > b.2 then p else b).2 := hstep.1
        _ ≤ _ := ih _ _ (List.mem_cons_self _ _)
    · rcases List.mem_cons.mp h2 with h3 | h4
      · subst h3
        calc p.2 ≤ (if init.2 > p.2 then init else p).2 := hstep.2
          _ ≤ _ := ih _ _ (List.mem_cons_self _ _)
      · exact ih _ _ (List.mem_cons_of_mem _ h4)

/-! ## Format lemmas for C1 -/

theorem takeWhile_append_all {p : Char → Bool} {l₁ : Str} (l₂ : Str)
    (h : ∀ c ∈ l₁, p c = true) :
    (l₁ ++ l₂).takeWhile p = l₁ ++ l₂.takeWhile p :=
  List.takeWhile_append_of_pos h

theorem scopeAfterOne_append {sc tail : Str}
    (hsc : ∀ c ∈ sc, isLineTerm c = false) (htail : colonDesc tail = true) :
    scopeAfterOne (sc ++ ')' :: tail) = true := by
  induction sc with
  | nil => simp [scopeAfterOne, htail]
  | cons c sc' ih =>
    have hc := hsc c (List.mem_cons_self _ _)
    have hrest : ∀ x ∈ sc', isLineTerm x = false :=
      fun x hx => hsc x (List.mem_cons_of_mem _ hx)
    simp [scopeAfterOne, hc, ih hrest]

theorem scopeScan_append {sc tail : Str} (hne : sc ≠ [])
    (hsc : ∀ c ∈ sc, isLineTerm c = false) (htail : colonDesc tail = true) :
    scopeScan (sc ++ ')' :: tail) = true := by
  cases sc with
  | nil => exact absurd rfl hne
  | cons c sc' =>
    have hc := hsc c (List.mem_cons_self _ _)
    have hrest : ∀ x ∈ sc', isLineTerm x = false :=
      fun x hx => hsc x (List.mem_cons_of_mem _ hx)
    simp [scopeScan, hc, scopeAfterOne_append hrest htail]

theorem colonDesc_cons {d : Str} (h : headOk d = true) :
    colonDesc (':' :: ' ' :: d) = true := by
  cases d with
  | nil => simp [headOk] at h
  | cons c tl => simpa [colonDesc, headOk] using h

theorem formatOk_plain {t d : Str} (ht : t ∈ commitTypeNames) (hd : headOk d = true) :
    formatOk (t ++ ':' :: ' ' :: d) = true := by
  unfold formatOk
  rw [List.any_eq_true]
  refine ⟨t, ht, ?_⟩
  rw [Bool.and_eq_true]
  constructor
  · exact isPrefixOf_append_self _ _
  · rw [List.drop_left]
    unfold restFormatOk
    simp [colonDesc_cons hd]

theorem formatOk_scoped {t sc d : Str} (ht : t ∈ commitTypeNames) (hne : sc ≠ [])
    (hsc : ∀ c ∈ sc, isLineTerm c = false) (hd : headOk d = true) :
    formatOk (t ++ '(' :: (sc ++ ')' :: ':' :: ' ' :: d)) = true := by
  unfold formatOk
  rw [List.any_eq_true]
  refine ⟨t, ht, ?_⟩
  rw [Bool.and_eq_true]
  constructor
  · exact isPrefixOf_append_self _ _
  · rw [List.drop_left]
    unfold restFormatOk
    have := scopeScan_append hne hsc (colonDesc_cons hd)
    simp [this]

/-- The verb actually interpolated by `_generateDescription` for a commit
type. -/
def verbFor (verbTable : List (Str × List Str)) (commitType : Str) : Str :=
  (((verbTable.lookup commitType).getD ["update".data]).headD "undefined".data)

theorem action_verbs_head_ok :
    ∀ p ∈ ACTION_VERBS, headOk (p.2.headD "undefined".data) = true := by
  decide

theorem verbFor_headOk (ct : Str) : headOk (verbFor ACTION_VERBS ct) = true := by
  unfold verbFor
  cases h : ACTION_VERBS.lookup ct with
  | none =>
    simp only [Option.getD]
    decide
  | some l =>
    have hmem := mem_of_lookup_eq_some h
    have := action_verbs_head_ok (ct, l) hmem
    simpa [Option.getD] using this

theorem generateDescription_headOk (a : Analysis) (ct : Str) :
    headOk (generateDescriptionWith ACTION_VERBS a ct) = true := by
  have hverb : headOk (verbFor ACTION_VERBS ct) = true := verbFor_headOk ct
  unfold generateDescriptionWith
  dsimp only
  have hrem : headOk "remove ".data = true := by decide
  unfold verbFor at hverb
  repeat' split
  all_goals first
    | exact headOk_append _ hverb
    | exact headOk_append _ (headOk_append _ hverb)
    | exact headOk_append _ (headOk_append _ (headOk_append _ hverb))
    | exact headOk_append _ hrem

theorem commitTypeOf_mem_names (change_type : Str) :
    commitTypeOf change_type ∈ commitTypeNames := by
  unfold commitTypeOf
  cases h : TYPE_MAPPING.lookup change_type with
  | none => simp [Option.getD]; decide
  | some v =>
    have hmem := mem_of_lookup_eq_some h
    simp only [Option.getD]
    have hv : v ∈ TYPE_MAPPING.map (·.2) := List.mem_map_of_mem _ hmem
    have hsub : ∀ x ∈ TYPE_MAPPING.map (·.2), x ∈ commitTypeNames := by decide
    exact hsub v hv

/-- Every string the classifier can return as a scope. -/
def scopeCandidates : List Str :=
  fileExtensions.map (·.2) ++ ["other".data, "test".data, "docs".data, "config".data]

theorem bumpCount_mem {m : List (Str × Nat)} {k : Str} {p : Str × Nat}
    (h : p ∈ bumpCount m k) : p.1 = k ∨ p ∈ m := by
  induction m with
  | nil =>
    simp [bumpCount] at h
    simp [h]
  | cons q tl ih =>
    obtain ⟨k', v⟩ := q
    unfold bumpCount at h
    split at h
    · rename_i hk
      rcases List.mem_cons.mp h with h1 | h2
      · subst h1
        left
        simpa using hk
      · right
        exact List.mem_cons_of_mem _ h2
    · rcases List.mem_cons.mp h with h1 | h2
      · right
        subst h1
        exact List.mem_cons_self _ _
      · rcases ih h2 with h3 | h4
        · exact Or.inl h3
        · exact Or.inr (List.mem_cons_of_mem _ h4)

theorem fileTypeOf_mem (f : Str) :
    ((fileExtensions.lookup (lowerStr (extnameStr f))).getD "other".data) ∈
      scopeCandidates := by
  cases h : fileExtensions.lookup (lowerStr (extnameStr f)) with
  | none => simp [Option.getD]; decide
  | some v =>
    have hmem := mem_of_lookup_eq_some h
    simp only [Option.getD]
    have hv : v ∈ fileExtensions.map (·.2) := List.mem_map_of_mem _ hmem
    have hsub : ∀ x ∈ fileExtensions.map (·.2), x ∈ scopeCandidates := by decide
    exact hsub v hv

theorem analyzeFileTypes_keys {files : List Str} :
    ∀ p ∈ analyzeFileTypes files, p.1 ∈ scopeCandidates := by
  unfold analyzeFileTypes
  suffices h : ∀ (m : List (Str × Nat)), (∀ p ∈ m, p.1 ∈ scopeCandidates) →
      ∀ p ∈ files.foldl
        (fun m f =>
          bumpCount m ((fileExtensions.lookup (lowerStr (extnameStr f))).getD "other".data))
        m, p.1 ∈ scopeCandidates by
    exact h [] (by simp)
  induction files with
  | nil =>
    intro m hm
    simp only [List.foldl]
    exact hm
  | cons f tl ih =>
    intro m hm
    simp only [List.foldl]
    apply ih
    intro p hp
    rcases bumpCount_mem hp with h1 | h2
    · rw [h1]
      exact fileTypeOf_mem f
    · exact hm p h2

theorem determineScope_mem {fileTypes : List (Str × Nat)} {files : List Str} {s : Str}
    (hk : ∀ p ∈ fileTypes, p.1 ∈ scopeCandidates)
    (h : determineScope fileTypes files = some s) : s ∈ scopeCandidates := by
  unfold determineScope at h
  split at h
  · rename_i k v
    have hs : k = s := by simpa using h
    rw [← hs]
    exact hk (k, v) (by simp)
  · split at h
    · simp only [Option.some.injEq] at h
      subst h
      decide
    · split at h
      · simp only [Option.some.injEq] at h
        subst h
        decide
      · split at h
        · simp only [Option.some.injEq] at h
          subst h
          decide
        · split at h
          · exact absurd h (by simp)
          · simp only [Option.some.injEq] at h
            subst h
            exact hk _ (foldl_pick_mem _ _)

theorem scope_candidates_ok :
    ∀ s ∈ scopeCandidates, s ≠ [] ∧ ∀ c ∈ s, isLineTerm c = false := by
  decide

theorem validate_format_not_mem {m : Str}
    (h : formatOk ((splitLines m).headD []) = true) :
    formatErrMsg ∉ (validateMessage m).2 := by
  unfold validateMessage
  dsimp only
  rw [if_pos h]
  intro hmem
  simp only [List.nil_append, List.mem_append] at hmem
  rcases hmem with (h1 | h2) | h3
  · split at h1
    · simp at h1
      exact absurd h1 (by decide)
    · simp at h1
  · split at h2
    · split at h2
      · simp at h2
        exact absurd h2 (by decide)
      · simp at h2
    · simp at h2
  · split at h3
    · simp at h3
      exact absurd h3 (by decide)
    · simp at h3

theorem commitTypeNames_no_newline :
    ∀ t ∈ commitTypeNames, ∀ c ∈ t, decide (c ≠ '\n') = true := by decide

theorem takeWhile_format_plain {t d : Str} (ht : t ∈ commitTypeNames)
    (hd : headOk d = true) :
    formatOk ((t ++ ':' :: ' ' :: d).takeWhile (· ≠ '\n')) = true := by
  rw [takeWhile_append_all _ (commitTypeNames_no_newline t ht)]
  cases d with
  | nil => simp [headOk] at hd
  | cons c d' =>
    have hc : decide (c ≠ '\n') = true := by
      simp only [headOk, isLineTerm] at hd
      simp only [Bool.not_eq_true'] at hd
      simp only [decide_eq_true_eq]
      intro hcc
      subst hcc
      simp at hd
    have hc' : ¬c = '\n' := by simpa using hc
    have hsh : (':' :: ' ' :: c :: d').takeWhile (· ≠ '\n') =
        ':' :: ' ' :: c :: (d'.takeWhile (· ≠ '\n')) := by
      simp [List.takeWhile_cons, hc']
    rw [hsh]
    apply formatOk_plain ht
    simp only [headOk]
    simp only [headOk, isLineTerm] at hd
    simpa [isLineTerm] using hd

theorem takeWhile_format_scoped {t sc d : Str} (ht : t ∈ commitTypeNames)
    (hne : sc ≠ []) (hsc : ∀ c ∈ sc, isLineTerm c = false) (hd : headOk d = true) :
    formatOk ((t ++ '(' :: (sc ++ ')' :: ':' :: ' ' :: d)).takeWhile (· ≠ '\n')) = true := by
  rw [takeWhile_append_all _ (commitTypeNames_no_newline t ht)]
  have hsc' : ∀ c ∈ sc, decide (c ≠ '\n') = true := by
    intro c hc
    have := hsc c hc
    simp only [isLineTerm, Bool.or_eq_false_iff] at this
    simp only [decide_eq_true_eq]
    intro hcc
    subst hcc
    simp at this
  cases d with
  | nil => simp [headOk] at hd
  | cons c d' =>
    have hc : decide (c ≠ '\n') = true := by
      simp only [headOk, isLineTerm, Bool.not_eq_true', Bool.or_eq_false_iff] at hd
      simp only [decide_eq_true_eq]
      intro hcc
      subst hcc
      simp at hd
    have hsh : ('(' :: (sc ++ ')' :: ':' :: ' ' :: c :: d')).takeWhile (· ≠ '\n') =
        '(' :: (sc ++ ')' :: ':' :: ' ' :: c :: (d'.takeWhile (· ≠ '\n'))) := by
      rw [List.takeWhile_cons]
      simp only [decide_eq_true_eq]
      rw [if_pos (by decide : ('(' : Char) ≠ '\n')]
      rw [takeWhile_append_all _ hsc']
      have hc' : ¬c = '\n' := by simpa using hc
      simp [List.takeWhile_cons, hc']
    rw [hsh]
    apply formatOk_scoped ht hne hsc
    simp only [headOk, isLineTerm, Bool.not_eq_true', Bool.or_eq_false_iff] at hd ⊢
    cases d' <;> simpa [List.takeWhile_cons] using hd

theorem subject_format_ok (a : Analysis)
    (hscope : ∀ s, a.scope = some s → s ∈ scopeCandidates) :
    formatOk ((generateSubjectWith ACTION_VERBS a).takeWhile (· ≠ '\n')) = true := by
  have hct := commitTypeOf_mem_names a.change_type
  have hd := generateDescription_headOk a (commitTypeOf a.change_type)
  unfold generateSubjectWith
  dsimp only
  cases hs : a.scope with
  | none =>
    dsimp only
    have heq : commitTypeOf a.change_type ++ [':', ' '] ++
        generateDescriptionWith ACTION_VERBS a (commitTypeOf a.change_type) =
        commitTypeOf a.change_type ++ ':' :: ' ' ::
          generateDescriptionWith ACTION_VERBS a (commitTypeOf a.change_type) := by
      simp only [List.append_assoc, List.cons_append, List.nil_append]
    rw [heq]
    exact takeWhile_format_plain hct hd
  | some sc =>
    dsimp only
    split
    · rename_i hcond
      have hne : sc ≠ [] := hcond.1
      have hmem : sc ∈ scopeCandidates := hscope sc hs
      have hsc2 := scope_candidates_ok sc hmem
      have heq : commitTypeOf a.change_type ++ ['('] ++ sc ++ [')', ':', ' '] ++
          generateDescriptionWith ACTION_VERBS a (commitTypeOf a.change_type) =
          commitTypeOf a.change_type ++
            '(' :: (sc ++ ')' :: ':' :: ' ' ::
              generateDescriptionWith ACTION_VERBS a (commitTypeOf a.change_type)) := by
        simp only [List.append_assoc, List.cons_append, List.nil_append]
      rw [heq]
      exact takeWhile_format_scoped hct hne hsc2.2 hd
    · have heq : commitTypeOf a.change_type ++ [':', ' '] ++
          generateDescriptionWith ACTION_VERBS a (commitTypeOf a.change_type) =
          commitTypeOf a.change_type ++ ':' :: ' ' ::
            generateDescriptionWith ACTION_VERBS a (commitTypeOf a.change_type) := by
        simp only [List.append_assoc, List.cons_append, List.nil_append]
      rw [heq]
      exact takeWhile_format_plain hct hd

/-- C1: For every Analysis value produced by the Classifier (hence for every
changeType and status shape it can produce), the subject string returned by
`generateSubject` matches the validator format regex
`^(feat|fix|docs|style|refactor|perf|test|build|ci|chore|revert)(\\(.+\\))?: .+`:
`validateMessage` applied to that subject never reports the format-rule
violation. -/
theorem c1_subject_matches_validator_format (cs : ChangeSet) :
    formatErrMsg ∉ (validateMessage (generateSubject (analyzeChanges cs))).2 := by
  apply validate_format_not_mem
  rw [splitLines_headD]
  apply subject_format_ok
  intro s hs
  exact determineScope_mem analyzeFileTypes_keys hs

/-! ## C3: the empty change-set -/

/-- C3 counterexample: on the change-set with all four status lists empty (and
empty diff), `analyzeChanges` sets `change_type` to the string `feat` — the
conventional-commit default returned by `detectChangeType` — and not to the
semantic-category string `feature` asserted by the claim. -/
theorem c3_empty_changeset_counterexample :
    (analyzeChanges ⟨⟨[], [], [], []⟩, ⟨0, 0, 0⟩, []⟩).change_type ≠ "feature".data ∧
    (analyzeChanges ⟨⟨[], [], [], []⟩, ⟨0, 0, 0⟩, []⟩).change_type = "feat".data := by
  constructor
  · decide
  · rfl

/-- C3 amended: for every change-set whose four status lists are empty and
whose diff text is empty (any stats), classification returns
`change_type = "feat"` (the zero-evidence default string) and `scope = null`. -/
theorem c3_empty_changeset_default (stats : DiffStats) :
    (analyzeChanges ⟨⟨[], [], [], []⟩, stats, []⟩).change_type = "feat".data ∧
    (analyzeChanges ⟨⟨[], [], [], []⟩, stats, []⟩).scope = none := by
  constructor
  · rfl
  · rfl

/-! ## C5: the two-deletion scenario -/

/-- The change-set of C5: only `deleted: ["old_helper.js", "legacy.js"]`. -/
def twoDeletionsChangeSet : ChangeSet :=
  ⟨⟨[], [], ["old_helper.js".data, "legacy.js".data], []⟩, ⟨2, 0, 0⟩, []⟩

/-- C5 counterexample: the synthesized subject for the two-deletion change-set
is not `feat: remove 2 files`; both files map to the single file-type key
`javascript`, so `determineScope` yields `javascript` and the subject carries
that scope token. -/
theorem c5_two_deletions_counterexample :
    generateSubject (analyzeChanges twoDeletionsChangeSet) ≠
      "feat: remove 2 files".data ∧
    (analyzeChanges twoDeletionsChangeSet).scope = some "javascript".data := by
  constructor
  · decide
  · rfl

/-- C5 amended: for the change-set with `deleted = ["old_helper.js",
"legacy.js"]` and empty added/modified lists, the synthesized subject is
exactly `feat(javascript): remove 2 files`, with the scope token `javascript`
in parentheses. -/
theorem c5_two_deletions_subject :
    generateSubject (analyzeChanges twoDeletionsChangeSet) =
      "feat(javascript): remove 2 files".data := by
  rfl

/-! ## C9: determinism of classification -/

/-- C9: classification is deterministic and idempotent: `analyzeChanges` is a
pure function of the injected `ChangeSet`, so two invocations on structurally
equal inputs produce structurally equal `Analysis` records. -/
theorem c9_classify_deterministic (cs1 cs2 : ChangeSet) (h : cs1 = cs2) :
    analyzeChanges cs1 = analyzeChanges cs2 :=
  congrArg analyzeChanges h

/-- Witness for C9 at a concrete change-set. -/
theorem c9_classify_deterministic_witness :
    analyzeChanges ⟨⟨["auth.py".data], [], [], []⟩, ⟨1, 45, 2⟩,
        "+def login(user):\n".data⟩ =
      analyzeChanges ⟨⟨["auth.py".data], [], [], []⟩, ⟨1, 45, 2⟩,
        "+def login(user):\n".data⟩ :=
  c9_classify_deterministic _ _ rfl

/-! ## C7: the validator rules -/

/-- Nonempty with an ASCII-uppercase first character. -/
def startsUpper (s : Str) : Bool :=
  match s with
  | c :: _ => isAsciiUpper c
  | [] => false

theorem dropWhile_head_false {p : Char → Bool} {l : Str} {c : Char} {r : Str}
    (h : l.dropWhile p = c :: r) : p c = false := by
  induction l with
  | nil => simp at h
  | cons x tl ih =>
    rw [List.dropWhile_cons] at h
    split at h
    · exact ih h
    · rename_i hx
      obtain ⟨rfl, -⟩ := List.cons.inj h
      simpa using hx

theorem trim_of_dropWhile {l : Str} {c : Char} {r : Str}
    (h : l.dropWhile isJsSpace = c :: r) :
    trimStr l = c :: (r.reverse.dropWhile isJsSpace).reverse := by
  have hc : isJsSpace c = false := dropWhile_head_false h
  unfold trimStr
  rw [h, List.reverse_cons, List.dropWhile_append]
  split
  · rename_i hemp
    have hone : List.dropWhile isJsSpace [c] = [c] := by
      simp [List.dropWhile_cons, hc]
    have hnil : r.reverse.dropWhile isJsSpace = [] := by
      simpa [List.isEmpty_iff] using hemp
    rw [hone, hnil]
    simp
  · rw [List.reverse_append]
    simp

theorem trim_nil_of_dropWhile {l : Str} (h : l.dropWhile isJsSpace = []) :
    trimStr l = [] := by
  unfold trimStr
  rw [h]
  simp

theorem upper_not_space {c : Char} (h : isAsciiUpper c = true) :
    isJsSpace c = false := by
  by_contra hsp
  rw [Bool.not_eq_false] at hsp
  simp only [isJsSpace, Bool.or_eq_true, decide_eq_true_eq] at hsp
  rcases hsp with ((((h1 | h1) | h1) | h1) | h1) | h1 <;> subst h1 <;>
    exact absurd h (by decide)

theorem upper_ne_colon {c : Char} (h : isAsciiUpper c = true) :
    decide (c ≠ ':') = true := by
  simp only [decide_eq_true_eq]
  intro hc
  subst hc
  exact absurd h (by decide)

theorem space_ne_colon {c : Char} (h : isJsSpace c = true) :
    decide (c ≠ ':') = true := by
  simp only [isJsSpace, Bool.or_eq_true, decide_eq_true_eq] at h
  rcases h with ((((h1 | h1) | h1) | h1) | h1) | h1 <;> subst h1 <;> decide

/-- If the trimmed text after the first colon starts with an uppercase letter,
so does the code's `split(':', 2)[1].trim()` text (the portion up to the next
colon): the leading whitespace run and the uppercase character all survive
`takeWhile (· ≠ ':')`. -/
theorem capDescription_of_after {subject : Str}
    (h : startsUpper (trimStr ((subject.dropWhile (· ≠ ':')).drop 1)) = true) :
    capDescription subject ≠ [] ∧
      isAsciiUpper ((capDescription subject).headD ' ') = true := by
  set after := (subject.dropWhile (· ≠ ':')).drop 1 with hafter
  cases hdw : after.dropWhile isJsSpace with
  | nil =>
    rw [trim_nil_of_dropWhile hdw] at h
    simp [startsUpper] at h
  | cons c0 r =>
    rw [trim_of_dropWhile hdw] at h
    simp only [startsUpper] at h
    have hcup : isAsciiUpper c0 = true := h
    have hcsp : isJsSpace c0 = false := upper_not_space hcup
    have hsplit : after = after.takeWhile isJsSpace ++ (c0 :: r) := by
      conv_lhs => rw [← List.takeWhile_append_dropWhile isJsSpace after]
      rw [hdw]
    have htw : ∀ x ∈ after.takeWhile isJsSpace, decide (x ≠ ':') = true :=
      fun x hx => space_ne_colon (List.mem_takeWhile_imp hx)
    have hbetween : after.takeWhile (· ≠ ':') =
        after.takeWhile isJsSpace ++ (c0 :: r.takeWhile (· ≠ ':')) := by
      conv_lhs => rw [hsplit]
      rw [List.takeWhile_append_of_pos htw, List.takeWhile_cons,
        if_pos (by simpa using upper_ne_colon hcup)]
    have hsp : ∀ x ∈ after.takeWhile isJsSpace, isJsSpace x = true :=
      fun x hx => List.mem_takeWhile_imp hx
    have hdrop : (after.takeWhile (· ≠ ':')).dropWhile isJsSpace =
        c0 :: r.takeWhile (· ≠ ':') := by
      rw [hbetween, List.dropWhile_append_of_pos hsp, List.dropWhile_cons,
        if_neg (by simp [hcsp])]
    unfold capDescription
    rw [← hafter, trim_of_dropWhile hdrop]
    exact ⟨by simp, by simpa using hcup⟩

/-- A 73-character subject ending in a period, with uppercase text after the
colon: violates the length, period and capitalization rules at once. -/
def msgOver72 : Str := "feat: AAAAAAAAAAAAAAAAAAAAAAAAAAAAAAAAAAAAAAAAAAAAAAAAAAAAAAAAAAAAAAAAAA.".data

/-- A 72-character subject: exactly at the length limit. -/
def msgAt72 : Str := "feat: aaaaaaaaaaaaaaaaaaaaaaaaaaaaaaaaaaaaaaaaaaaaaaaaaaaaaaaaaaaaaaaaaa".data

/-- The error list of `validateMessage`, spelled out. -/
theorem validateMessage_errors (message : Str) :
    (validateMessage message).2 =
      (if formatOk ((splitLines message).headD []) then [] else [formatErrMsg]) ++
      (if ((splitLines message).headD []).length > 72 then [lengthErrMsg] else []) ++
      (if ((splitLines message).headD []) ≠ [] ∧
          ((splitLines message).headD []).contains ':' then
        (if capDescription ((splitLines message).headD []) ≠ [] ∧
            isAsciiUpper ((capDescription ((splitLines message).headD [])).headD ' ') then
          [capitalErrMsg]
        else [])
      else []) ++
      (if ((splitLines message).headD []).getLast? = some '.' then [periodErrMsg]
       else []) := rfl

/-- C7: `validateMessage` reports the length rule for every subject longer
than 72 characters, reports no length violation for a subject of exactly 72
characters, reports the period rule for every subject ending in `.`, and
reports the capitalization rule for every subject containing a colon whose
trimmed text after the first colon starts with an ASCII uppercase letter; each
violated rule appears in the returned list independently of the others. -/
theorem c7_validate_rules (message : Str) :
    (((splitLines message).headD []).length > 72 →
      lengthErrMsg ∈ (validateMessage message).2) ∧
    (((splitLines message).headD []).length = 72 →
      lengthErrMsg ∉ (validateMessage message).2) ∧
    (((splitLines message).headD []).getLast? = some '.' →
      periodErrMsg ∈ (validateMessage message).2) ∧
    (':' ∈ (splitLines message).headD [] →
      startsUpper
        (trimStr ((((splitLines message).headD []).dropWhile (· ≠ ':')).drop 1)) =
        true →
      capitalErrMsg ∈ (validateMessage message).2) := by
  refine ⟨?_, ?_, ?_, ?_⟩
  · intro h
    unfold validateMessage
    dsimp only
    rw [if_pos h]
    exact List.mem_append_left _
      (List.mem_append_left _ (List.mem_append_right _ (by simp)))
  · intro h hmem
    unfold validateMessage at hmem
    dsimp only at hmem
    have hnot : ¬((splitLines message).headD []).length > 72 := by omega
    rw [if_neg hnot] at hmem
    simp only [List.append_nil, List.mem_append] at hmem
    rcases hmem with (h1 | h2) | h3
    · split at h1
      · simp at h1
      · simp at h1
        exact absurd h1 (by decide)
    · split at h2
      · split at h2
        · simp at h2
          exact absurd h2 (by decide)
        · simp at h2
      · simp at h2
    · split at h3
      · simp at h3
        exact absurd h3 (by decide)
      · simp at h3
  · intro h
    unfold validateMessage
    dsimp only
    rw [if_pos h]
    exact List.mem_append_right _ (by simp)
  · intro hcolon hup
    have hne : (splitLines message).headD [] ≠ [] := by
      intro hnil
      rw [hnil] at hcolon
      simp at hcolon
    have hcont : ((splitLines message).headD []).contains ':' = true := by
      simpa [List.contains] using hcolon
    obtain ⟨hcd, hhead⟩ := capDescription_of_after hup
    rw [validateMessage_errors]
    rw [if_pos (And.intro hne hcont), if_pos (And.intro hcd hhead)]
    exact List.mem_append_left _ (List.mem_append_right _ (by simp))

/-- Witness for C7: the 73-character subject triggers the length, period and
capitalization rules simultaneously; the 72-character subject triggers no
length violation. -/
theorem c7_validate_rules_witness :
    lengthErrMsg ∈ (validateMessage msgOver72).2 ∧
    periodErrMsg ∈ (validateMessage msgOver72).2 ∧
    capitalErrMsg ∈ (validateMessage msgOver72).2 ∧
    lengthErrMsg ∉ (validateMessage msgAt72).2 :=
  ⟨(c7_validate_rules msgOver72).1 (by decide),
   (c7_validate_rules msgOver72).2.2.1 (by decide),
   (c7_validate_rules msgOver72).2.2.2 (by decide) (by decide),
   (c7_validate_rules msgAt72).2.1 (by decide)⟩

/-! ## C2: change-type scoring -/

/-- Modelled from the spec (the claim's per-match scoring): the total number
of matches a global-flag JS regex finds in the text.  Every pattern in
`changePatterns` has the shape `/a.*/` or `/a.*b/` with a greedy `.*` that
cannot cross a line terminator, so each match extends to the end of the
matched region of its line and a pattern produces exactly one match per line
on which it matches; the total match count is therefore the number of matching
lines. -/
def specMatchCount (dl : Str) (p : Pat) : Nat :=
  ((splitLines dl).filter (fun l => patMatch l p)).length

/-- Modelled from the spec (the claim's scoring): category score = total
pattern-match count, each match adds 1. -/
def specCategoryScore (pats : List Pat) (dl : Str) : Nat :=
  (pats.map (specMatchCount dl)).sum

/-- C2 counterexample: on the diff `create a\ncreate b\nresolve c`, the
claim's per-match scoring gives feature = 2 (the `/create.*/i` pattern matches
on two lines) and fix = 1, so "feature" is the unique strictly-highest-scoring
category — yet `detectChangeType` returns "fix": the code gives each pattern
at most one point (`String.match` with a non-global regex), producing a 1-1
tie that its `reduce` resolves to the later key. -/
theorem c2_scoring_counterexample :
    detectChangeType "create a\ncreate b\nresolve c".data = "fix".data ∧
    specCategoryScore featurePats
      (lowerStr "create a\ncreate b\nresolve c".data) = 2 ∧
    specCategoryScore fixPats (lowerStr "create a\ncreate b\nresolve c".data) = 1 ∧
    "fix".data ≠ "feature".data := by
  refine ⟨rfl, rfl, rfl, by decide⟩

theorem foldl_max_eq_zero {l : List Nat} {acc : Nat} :
    l.foldl max acc = 0 ↔ acc = 0 ∧ ∀ x ∈ l, x = 0 := by
  induction l generalizing acc with
  | nil => simp [List.foldl]
  | cons x tl ih =>
    rw [List.foldl_cons, ih, Nat.max_eq_zero_iff]
    constructor
    · rintro ⟨⟨h1, h2⟩, h3⟩
      refine ⟨h1, fun y hy => ?_⟩
      rcases List.mem_cons.mp hy with h | h
      · subst h
        exact h2
      · exact h3 y h
    · rintro ⟨h1, h2⟩
      exact ⟨⟨h1, h2 x (List.mem_cons_self _ _)⟩,
        fun y hy => h2 y (List.mem_cons_of_mem _ hy)⟩

theorem pickMaxKey_spec {ts : List (Str × Nat)} (h : ts ≠ []) :
    ∃ q ∈ ts, pickMaxKey ts = q.1 ∧ ∀ p ∈ ts, p.2 ≤ q.2 := by
  cases ts with
  | nil => exact absurd rfl h
  | cons p tl =>
    refine ⟨tl.foldl (fun a b => if a.2 > b.2 then a else b) p,
      foldl_pick_mem tl p, ?_, foldl_pick_ge tl p⟩
    rfl

/-- C2 amended: the detector scores each category by the number of its
patterns that match at least once anywhere in the lowercased diff (a pattern
matching at several places still contributes exactly 1); when every score is
zero it returns "feat", and otherwise it returns a category whose score is
maximal — the last-listed among tied maxima — but not necessarily strictly
higher than every other category's score. -/
theorem c2_scoring_amended (d : Str) :
    ((∀ p ∈ typeScores (lowerStr d), p.2 = 0) →
      detectChangeType d = "feat".data) ∧
    ((∃ p ∈ typeScores (lowerStr d), p.2 ≠ 0) →
      ∃ q ∈ typeScores (lowerStr d), detectChangeType d = q.1 ∧
        ∀ p ∈ typeScores (lowerStr d), p.2 ≤ q.2) := by
  constructor
  · intro hz
    unfold detectChangeType
    dsimp only
    rw [if_pos (foldl_max_eq_zero.mpr ⟨rfl, fun x hx => by
      obtain ⟨p, hp, hpe⟩ := List.mem_map.mp hx
      rw [← hpe]
      exact hz p hp⟩)]
  · rintro ⟨p0, hp0, hp0ne⟩
    unfold detectChangeType
    dsimp only
    have hcond : ¬((typeScores (lowerStr d)).map (·.2)).foldl max 0 = 0 := by
      intro hc
      exact hp0ne ((foldl_max_eq_zero.mp hc).2 p0.2 (List.mem_map_of_mem _ hp0))
    rw [if_neg hcond]
    apply pickMaxKey_spec
    simp only [typeScores, changePatterns]
    simp

/-- Witness for C2 amended: the empty diff takes the all-zero branch; the diff
`create resolve` takes the maximal-score branch. -/
theorem c2_scoring_amended_witness :
    detectChangeType "".data = "feat".data ∧
    (∃ q ∈ typeScores (lowerStr "create resolve".data),
      detectChangeType "create resolve".data = q.1 ∧
      ∀ p ∈ typeScores (lowerStr "create resolve".data), p.2 ≤ q.2) :=
  ⟨(c2_scoring_amended "".data).1 (by decide),
   (c2_scoring_amended "create resolve".data).2 (by decide)⟩

/-! ## C4: where entity extraction finds identifiers -/

/-- C4 counterexample: the diff consisting of the single context line
` sum = a+b; def helper(x):` — a line that does NOT begin with `+` but merely
contains one — yields the entity `helper`: the `\+` in the extraction regexes
is not anchored to the line start. -/
theorem c4_context_line_counterexample :
    extractFunctionsAndClasses " sum = a+b; def helper(x):".data =
      ["helper".data] ∧
    (∀ l ∈ splitLines " sum = a+b; def helper(x):".data,
      "+".data.isPrefixOf l = false) := by
  refine ⟨rfl, by decide⟩

theorem scanMatchesFuel_no_plus (kw : Str) (needsEq : Bool) :
    ∀ (fuel : Nat) {d : Str}, '+' ∉ d → scanMatchesFuel kw needsEq fuel d = [] := by
  intro fuel
  induction fuel with
  | zero => intro d h; rfl
  | succ n ih =>
    intro d h
    cases d with
    | nil => rfl
    | cons c tl =>
      have hc : ¬c = '+' := fun he => h (he ▸ List.mem_cons_self _ _)
      simp only [scanMatchesFuel]
      rw [if_neg hc]
      exact ih (fun hm => h (List.mem_cons_of_mem _ hm))

theorem scanMatches_no_plus (kw : Str) (needsEq : Bool) {d : Str}
    (h : '+' ∉ d) : scanMatches kw needsEq d = [] :=
  scanMatchesFuel_no_plus kw needsEq d.length h

/-- C4 amended: the extraction patterns all require a literal `+` somewhere
before the declaration keyword on the same line (not a line beginning with a
single `+`: `+++` header lines and context lines containing `+` can also
contribute); in particular a diff containing no `+` at all yields no
entities. -/
theorem c4_no_plus_no_entities {d : Str} (h : '+' ∉ d) :
    extractFunctionsAndClasses d = [] := by
  unfold extractFunctionsAndClasses rawEntities
  have h1 := scanMatches_no_plus "def".data false h
  have h2 := scanMatches_no_plus "function".data false h
  have h3 := scanMatches_no_plus "class".data false h
  have h4 := scanMatches_no_plus "const".data true h
  have h5 := scanMatches_no_plus "let".data true h
  have h6 := scanMatches_no_plus "var".data true h
  simp only [entityPatterns, List.map_cons, List.map_nil, h1, h2, h3, h4, h5, h6]
  rfl

/-- Witness for C4 amended: a diff with declaration keywords but no `+`
produces no entities. -/
theorem c4_no_plus_no_entities_witness :
    ('+' ∉ "def alpha(x):\nclass Beta:".data) ∧
    extractFunctionsAndClasses "def alpha(x):\nclass Beta:".data = [] :=
  ⟨by decide, c4_no_plus_no_entities (by decide)⟩

/-! ## C8: shape and order of the entities list -/

theorem dedupSeen_sublist (seen : List Str) (l : List Str) :
    (dedupSeen seen l).Sublist l := by
  induction l generalizing seen with
  | nil => simp [dedupSeen]
  | cons x xs ih =>
    unfold dedupSeen
    split
    · exact (ih seen).cons _
    · exact (ih (x :: seen)).cons₂ _

theorem dedupSeen_not_mem_seen {seen l : List Str} {x : Str}
    (h : x ∈ dedupSeen seen l) : x ∉ seen := by
  induction l generalizing seen with
  | nil => simp [dedupSeen] at h
  | cons y xs ih =>
    unfold dedupSeen at h
    split at h
    · exact ih h
    · rename_i hy
      rcases List.mem_cons.mp h with h1 | h2
      · subst h1
        exact hy
      · intro hx
        exact ih h2 (List.mem_cons_of_mem _ hx)

theorem dedupSeen_nodup (seen : List Str) (l : List Str) :
    (dedupSeen seen l).Nodup := by
  induction l generalizing seen with
  | nil => simp [dedupSeen]
  | cons x xs ih =>
    unfold dedupSeen
    split
    · exact ih seen
    · rw [List.nodup_cons]
      refine ⟨fun hx => ?_, ih (x :: seen)⟩
      exact dedupSeen_not_mem_seen hx (List.mem_cons_self _ _)

/-- C8 amended: the entities field holds at most 5 pairwise-distinct strings
and is a subsequence of the pattern-major capture sequence (all matches of the
`def` pattern in text order, then `function`, `class`, `const`, `let`, `var`),
i.e. later duplicates — including duplicates found by a different pattern —
are removed; the order is this pattern-major first-seen order, not the order
of first occurrence in the diff text. -/
theorem c8_entities_shape (cs : ChangeSet) :
    (analyzeChanges cs).entities.length ≤ 5 ∧
    (analyzeChanges cs).entities.Nodup ∧
    (analyzeChanges cs).entities.Sublist (rawEntities cs.diffContent) := by
  refine ⟨?_, ?_, ?_⟩
  · show ((extractFunctionsAndClasses cs.diffContent).take 5).length ≤ 5
    exact List.length_take_le 5 _
  · show ((extractFunctionsAndClasses cs.diffContent).take 5).Nodup
    exact (List.take_sublist 5 _).nodup (dedupSeen_nodup [] _)
  · show ((extractFunctionsAndClasses cs.diffContent).take 5).Sublist
      (rawEntities cs.diffContent)
    exact (List.take_sublist 5 _).trans (dedupSeen_sublist [] _)

/-- C8 counterexample: in the diff `+function alpha()\n+def beta():` the
identifier `alpha` occurs strictly before `beta` (only `alpha` lies in the
first 17 characters), yet the entities list is `[beta, alpha]`: the scan is
pattern-major (all `def`-pattern matches before all `function`-pattern
matches), not first-occurrence order over the diff text. -/
theorem c8_order_counterexample :
    (analyzeChanges ⟨⟨[], [], [], []⟩, ⟨0, 0, 0⟩,
        "+function alpha()\n+def beta():".data⟩).entities =
      ["beta".data, "alpha".data] ∧
    substrOf "alpha".data ("+function alpha()\n+def beta():".data.take 17) = true ∧
    substrOf "beta".data ("+function alpha()\n+def beta():".data.take 17) = false := by
  refine ⟨rfl, by decide, by decide⟩

/-! ## C10: the verb table is restored -/

theorem setVal_cons_pos {k' k : Str} {v' v : List Str} {tl : List (Str × List Str)}
    (h : k' = k) : setVal ((k', v') :: tl) k v = (k', v) :: tl := by
  simp only [setVal]
  rw [if_pos h]

theorem setVal_cons_neg {k' k : Str} {v' v : List Str} {tl : List (Str × List Str)}
    (h : ¬k' = k) : setVal ((k', v') :: tl) k v = (k', v') :: setVal tl k v := by
  simp only [setVal]
  rw [if_neg h]

theorem setVal_setVal (m : List (Str × List Str)) (k : Str) (x y : List Str) :
    setVal (setVal m k x) k y = setVal m k y := by
  induction m with
  | nil => rfl
  | cons p tl ih =>
    obtain ⟨k', v'⟩ := p
    by_cases hk : k' = k
    · rw [setVal_cons_pos hk, setVal_cons_pos hk, setVal_cons_pos hk]
    · rw [setVal_cons_neg hk, setVal_cons_neg hk, setVal_cons_neg hk, ih]

theorem setVal_lookup_self {m : List (Str × List Str)} {k : Str} {v : List Str}
    (h : m.lookup k = some v) : setVal m k v = m := by
  induction m with
  | nil => simp [List.lookup] at h
  | cons p tl ih =>
    obtain ⟨k', v'⟩ := p
    simp only [List.lookup] at h
    by_cases hk : k' = k
    · rw [setVal_cons_pos hk]
      have hbeq : (k == k') = true := by simp [hk]
      rw [hbeq] at h
      simp only [Option.some.injEq] at h
      rw [hk, h]
    · rw [setVal_cons_neg hk]
      have hbeq : (k == k') = false := by
        simp only [beq_eq_false_iff_ne, ne_eq]
        exact fun he => hk he.symm
      rw [hbeq] at h
      rw [ih h]

theorem setVal_restore {table : List (Str × List Str)} {k : Str} {verbs : List Str}
    (hlk : table.lookup k = some verbs) (hlen : verbs.length > 1) :
    setVal (setVal table k (verbs.set 0 (verbs.getD 1 []))) k
      ((verbs.set 0 (verbs.getD 1 [])).set 0 (verbs.headD [])) = table := by
  rw [setVal_setVal]
  have hset : (verbs.set 0 (verbs.getD 1 [])).set 0 (verbs.headD []) = verbs := by
    cases verbs with
    | nil => simp at hlen
    | cons v0 vt =>
      cases vt with
      | nil => simp at hlen
      | cons v1 vr => simp [List.set]
  rw [hset]
  exact setVal_lookup_self hlk

/-- C10: although `suggestMultipleMessages` temporarily overwrites the first
entry of the per-type verb list to build its second suggestion, it restores
the original first verb before returning: the verb table is unchanged after
every call, and a second call on the resulting table returns the identical
message sequence. -/
theorem c10_verb_table_restored (table : List (Str × List Str)) (a : Analysis)
    (count : Nat) :
    (suggestMultipleMessagesSt table a count).2 = table ∧
    suggestMultipleMessagesSt table a count =
      suggestMultipleMessagesSt (suggestMultipleMessagesSt table a count).2 a
        count := by
  have hmain : (suggestMultipleMessagesSt table a count).2 = table := by
    unfold suggestMultipleMessagesSt
    dsimp only
    split
    · split
      · rename_i hcond
        dsimp only
        cases hlk : table.lookup (commitTypeOf a.change_type) with
        | none =>
          rw [hlk] at hcond
          simp at hcond
        | some l =>
          rw [hlk] at hcond
          simp only [Option.getD]
          exact setVal_restore hlk hcond.2
      · rfl
    · split
      · rename_i hcond
        dsimp only
        cases hlk : table.lookup (commitTypeOf a.change_type) with
        | none =>
          rw [hlk] at hcond
          simp at hcond
        | some l =>
          rw [hlk] at hcond
          simp only [Option.getD]
          exact setVal_restore hlk hcond.2
      · rfl
  exact ⟨hmain, by rw [hmain]⟩

/-! ## C6: number of deterministic suggestions -/

theorem modelled_verb_lists_long (ct : Str) :
    ((ACTION_VERBS.lookup (commitTypeOf ct)).getD ["update".data]).length > 1 := by
  unfold commitTypeOf
  cases hlk : TYPE_MAPPING.lookup ct with
  | none =>
    simp only [Option.getD]
    decide
  | some v =>
    have hv : v ∈ TYPE_MAPPING.map (·.2) := List.mem_map_of_mem _ (mem_of_lookup_eq_some hlk)
    simp only [Option.getD]
    have hall : ∀ x ∈ TYPE_MAPPING.map (·.2),
        ((ACTION_VERBS.lookup x).getD ["update".data]).length > 1 := by decide
    exact hall v hv

theorem head_take_succ {α : Type} (l : List α) (n : Nat) :
    (l.take (n + 1)).head? = l.head? := by
  cases l <;> simp

/-- C6 counterexample: for `count = 4` the deterministic path returns only 3
strings (primary, second-verb variant, generic fallback), not 4. -/
theorem c6_count_counterexample :
    (suggestMultipleMessages (analyzeChanges twoDeletionsChangeSet) 4).length ≠ 4 ∧
    (suggestMultipleMessages (analyzeChanges twoDeletionsChangeSet) 4).length = 3 := by
  refine ⟨by decide, rfl⟩

/-- C6 amended: for every Analysis and every `count ≥ 1`,
`suggestMultipleMessages` returns a deterministically computed sequence of
exactly `min count 3` strings (so exactly `count` only for `count ≤ 3`), whose
first element equals `generateFullMessage(analysis, includeBody := false)`. -/
theorem c6_suggest_count (a : Analysis) (count : Nat) (h : 1 ≤ count) :
    (suggestMultipleMessages a count).length = min count 3 ∧
    (suggestMultipleMessages a count).head? =
      some (generateFullMessage a false) := by
  have hlen := modelled_verb_lists_long a.change_type
  unfold suggestMultipleMessages suggestMultipleMessagesSt
  dsimp only
  match count, h with
  | 1, _ =>
    split
    · rename_i h3
      exact absurd h3 (by decide)
    · split
      · rename_i hcond
        exact absurd hcond.1 (by decide)
      · exact ⟨rfl, rfl⟩
  | 2, _ =>
    split
    · rename_i h3
      exact absurd h3 (by decide)
    · split
      · exact ⟨rfl, rfl⟩
      · rename_i hcond
        exact absurd (And.intro (by decide) hlen) hcond
  | (n + 3), _ =>
    split
    · split
      · refine ⟨?_, ?_⟩
        · simp only [List.append_assoc, List.cons_append, List.nil_append,
            List.length_take, List.length_cons, List.length_nil]
        · rw [head_take_succ]
          rfl
      · rename_i hcond
        exact absurd (And.intro (by omega) hlen) hcond
    · rename_i h3
      exact absurd (by omega : n + 3 > 2) h3

/-- Witness for C6 amended at `count = 2`. -/
theorem c6_suggest_count_witness :
    (suggestMultipleMessages (analyzeChanges twoDeletionsChangeSet) 2).length =
      min 2 3 ∧
    (suggestMultipleMessages (analyzeChanges twoDeletionsChangeSet) 2).head? =
      some (generateFullMessage (analyzeChanges twoDeletionsChangeSet) false) :=
  ⟨(c6_suggest_count (analyzeChanges twoDeletionsChangeSet) 2 (by decide)).1,
   (c6_suggest_count (analyzeChanges twoDeletionsChangeSet) 2 (by decide)).2⟩
